import Mathlib

/-!
Verification of the web crawler in `src/crawler.py`.

The development shallowly embeds the crawler's pure URL helpers
(`clean_fragments`, `is_relative`, `is_same_domain`, `get_base_url`,
`get_root_url`, `restore_relative_url`), its page fetcher (`process_page`),
its reporter (`print_results`) and the coordinator loop of `main`
(frontier dictionary, link expansion, task creation) as executable Lean
functions, and proves or refutes the specification's claims about them.

The `urllib.parse` routines the crawler calls (`urlsplit`, `urlunsplit`,
`urljoin`, `urldefrag`, netloc extraction) are modelled after CPython's
implementation, restricted to the behaviour the crawler exercises
(no `;params` splitting, no IPv6-bracket validation).  The HTML link
extractor and the HTTP client are external collaborators and enter the
model as function parameters, exactly as the specification scopes them.
-/

namespace Crawler

/-- Split a character list at the first occurrence of `c`; the second
component is `none` when `c` does not occur.  Models Python's
`str.find(c)` followed by slicing. -/
def splitFirst : List Char → Char → List Char × Option (List Char)
  | [], _ => ([], none)
  | x :: xs, c =>
    if x = c then ([], some xs)
    else
      let r := splitFirst xs c
      (x :: r.1, r.2)

/-- Split on every occurrence of the character `c`, keeping empty pieces,
modelling Python's `str.split(sep)` for a one-character separator. -/
def splitOnChar : List Char → Char → List (List Char)
  | [], _ => [[]]
  | x :: xs, c =>
    let r := splitOnChar xs c
    if x = c then [] :: r
    else
      match r with
      | [] => [[x]]
      | y :: ys => (x :: y) :: ys

/-- String wrapper for `splitOnChar`. -/
def pySplit (s : String) (c : Char) : List String :=
  (splitOnChar s.toList c).map String.mk

/-- Models Python's `str.startswith`. -/
def pyStartsWith (s pre : String) : Bool :=
  pre.toList.isPrefixOf s.toList

/-- Characters allowed in a URL scheme, `urllib.parse.scheme_chars`. -/
def isSchemeChar (c : Char) : Bool :=
  c.isAlphanum || c == '+' || c == '-' || c == '.'

/-- Result of `urllib.parse.urlsplit`. -/
structure SplitResult where
  scheme : String
  netloc : String
  path : String
  query : String
  fragment : String
deriving DecidableEq

/-- Model of `urllib.parse.urlsplit`: scheme detection (first `:` preceded
by a letter and scheme characters, lowercased), `//netloc` up to the next
`/`, `?` or `#`, fragment split at the first `#`, query split at the
first `?`. -/
def urlsplit (url : String) : SplitResult :=
  let cs := url.toList
  let schemeRest : List Char × List Char :=
    match splitFirst cs ':' with
    | (c :: rest0, some post) =>
      if c.isAlpha && (c :: rest0).all isSchemeChar then
        ((c :: rest0).map Char.toLower, post)
      else ([], cs)
    | _ => ([], cs)
  let rest := schemeRest.2
  let netlocRest : List Char × List Char :=
    match rest with
    | '/' :: '/' :: r =>
      (r.takeWhile (fun c => !(c == '/' || c == '?' || c == '#')),
       r.dropWhile (fun c => !(c == '/' || c == '?' || c == '#')))
    | _ => ([], rest)
  let restFrag : List Char × List Char :=
    match splitFirst netlocRest.2 '#' with
    | (a, some b) => (a, b)
    | (a, none) => (a, [])
  let pathQuery : List Char × List Char :=
    match splitFirst restFrag.1 '?' with
    | (a, some b) => (a, b)
    | (a, none) => (a, [])
  ⟨String.mk schemeRest.1, String.mk netlocRest.1, String.mk pathQuery.1,
   String.mk pathQuery.2, String.mk restFrag.2⟩

/-- Model of `urllib.parse.urlsplit` without `;params` handling, used by
`urljoin` and `urldefrag` (the crawler's URLs carry no params, for which
`urlparse`/`urlunparse` round-trip exactly like `urlsplit`/`urlunsplit`). -/
def urlunsplit (scheme netloc path query fragment : String) : String :=
  let url0 := path
  let url1 :=
    if netloc ≠ "" ∨ (url0 ≠ "" ∧ url0.take 2 = "//") then
      "//" ++ netloc ++ (if url0 ≠ "" ∧ url0.take 1 ≠ "/" then ("/") ++ url0 else url0)
    else url0
  let url2 := if scheme ≠ "" then scheme ++ ":" ++ url1 else url1
  let url3 := if query ≠ "" then url2 ++ "?" ++ query else url2
  if fragment ≠ "" then url3 ++ "#" ++ fragment else url3

/-- Schemes that allow relative resolution, `urllib.parse.uses_relative`. -/
def uses_relative : List String :=
  ["", "ftp", "http", "gopher", "nntp", "imap", "wais", "file", "https", "shttp",
   "mms", "prospero", "rtsp", "rtspu", "sftp", "svn", "svn+ssh", "ws", "wss"]

/-- Schemes that use a network location, `urllib.parse.uses_netloc`. -/
def uses_netloc : List String :=
  ["", "ftp", "http", "gopher", "nntp", "telnet", "imap", "wais", "file", "mms",
   "https", "shttp", "snews", "prospero", "rtsp", "rtspu", "rsync", "svn",
   "svn+ssh", "sftp", "nfs", "git", "git+ssh", "ws", "wss"]

/-- Models `segments[1:-1] = filter(None, segments[1:-1])` in CPython's
`urljoin`. -/
def filterMiddle : List String → List String
  | [] => []
  | [x] => [x]
  | x :: xs => x :: (xs.dropLast.filter (fun s => s != "")) ++ [xs.getLastD ("")]

/-- The segment-resolution loop of CPython's `urljoin` (`..` pops, `.` is
dropped, anything else is appended). -/
def joinSegments (segs : List String) : List String :=
  segs.foldl (fun acc seg =>
    if seg = ".." then acc.dropLast
    else if seg = "." then acc
    else acc ++ [seg]) []

/-- Model of `urllib.parse.urljoin` (CPython's algorithm, with `;params`
treated as part of the path). -/
def urljoin (base url : String) : String :=
  if base = "" then url
  else if url = "" then base
  else
    let b := urlsplit base
    let u := urlsplit url
    let scheme := if u.scheme = "" then b.scheme else u.scheme
    if scheme ≠ b.scheme ∨ scheme ∉ uses_relative then url
    else if scheme ∈ uses_netloc ∧ u.netloc ≠ "" then
      urlunsplit scheme u.netloc u.path u.query u.fragment
    else
      let netloc := if scheme ∈ uses_netloc then b.netloc else u.netloc
      if u.path = "" then
        let query := if u.query = "" then b.query else u.query
        urlunsplit scheme netloc b.path query u.fragment
      else
        let bparts0 := pySplit b.path '/' 
        let bparts := if bparts0.getLastD ("") ≠ "" then bparts0.dropLast else bparts0
        let segments :=
          if u.path.take 1 = "/" then pySplit u.path '/'
          else filterMiddle (bparts ++ pySplit u.path '/')
        let resolved0 := joinSegments segments
        let resolved :=
          if segments.getLastD ("") = "." ∨ segments.getLastD ("") = ".." then
            resolved0 ++ [""]
          else resolved0
        let p0 := String.intercalate ("/") resolved
        let p := if p0 = "" then ("/") else p0
        urlunsplit scheme netloc p u.query u.fragment

/-- `restore_relative_url` from `crawler.py`: join root url and relative
path via `urljoin(root_url, relative_url)`. -/
def restore_relative_url (relative_url root_url : String) : String :=
  urljoin root_url relative_url

/-- `clean_fragments` from `crawler.py`: `urldefrag(url).url`, which
reassembles the URL without its fragment when it contains `#` and is the
identity otherwise. -/
def clean_fragments (url : String) : String :=
  if url.toList.contains '#' then
    let sp := urlsplit url
    urlunsplit sp.scheme sp.netloc sp.path sp.query ("")
  else url

/-- `is_relative` from `crawler.py`: true iff `urlparse(url).netloc` is
empty. -/
def is_relative (relative_url : String) : Bool :=
  (urlsplit relative_url).netloc == ""

/-- `is_same_domain` from `crawler.py`:
`bool(url.netloc and url.netloc == root_url.netloc)`. -/
def is_same_domain (url root_url : String) : Bool :=
  ((urlsplit url).netloc != "") && ((urlsplit url).netloc == (urlsplit root_url).netloc)

/-- `get_base_url` from `crawler.py`: prepend `http://` unless the input
starts with `http://` or `https://`, then
`urlunsplit(urlsplit(s)[:3] + ('', ''))`. -/
def get_base_url (base_url_string : String) : String :=
  let s :=
    if pyStartsWith base_url_string ("http://") || pyStartsWith base_url_string ("https://")
    then base_url_string
    else ("http://") ++ base_url_string
  let sp := urlsplit s
  urlunsplit sp.scheme sp.netloc sp.path ("") ("")

/-- `get_root_url` from `crawler.py`: keep the last two dot-separated
labels of the netloc and rebuild `scheme://domain`. -/
def get_root_url (base_url_string : String) : String :=
  let sp := urlsplit base_url_string
  let parts := pySplit sp.netloc '.' 
  let domain := String.intercalate (".") (parts.drop (parts.length - 2))
  urlunsplit sp.scheme domain ("") ("") ("")

/-! ## Data model: tasks, results, outcomes, the frontier dictionary -/

/-- `Task = namedtuple('Task', 'url collect_links')`. -/
structure Task where
  url : String
  collect_links : Bool
deriving DecidableEq

/-- `ResponseResult = namedtuple('ResponseResult', 'url status error links redirect')`. -/
structure ResponseResult where
  url : String
  status : Option Nat
  error : String
  links : List String
  redirect : String
deriving DecidableEq

/-- The per-URL record stored in `processed_urls`:
`{'status': result.status, 'error': result.error}`. -/
structure Outcome where
  status : Option Nat
  error : String
deriving DecidableEq

/-- The `processed_urls` dictionary: insertion-ordered association list from
URL to `None` (pending/placeholder) or a completed `Outcome`, mirroring a
Python dict. -/
abbrev CrawlDict := List (String × Option Outcome)

/-- Lookup in the frontier dictionary (`url in processed_urls` /
`processed_urls[url]`). -/
def dictFind : CrawlDict → String → Option (Option Outcome)
  | [], _ => none
  | (k', v) :: rest, k => if k' = k then some v else dictFind rest k

/-- Membership in the frontier dictionary. -/
def dictMem (d : CrawlDict) (k : String) : Bool :=
  (dictFind d k).isSome

/-- `processed_urls[k] = v`: replace in place if the key exists (Python
dicts keep the original insertion position), append otherwise. -/
def dictSet : CrawlDict → String → Option Outcome → CrawlDict
  | [], k, v => [(k, v)]
  | (k', v') :: rest, k, v =>
    if k' = k then (k, v) :: rest else (k', v') :: dictSet rest k v

/-! ## Page fetcher (`process_page`)

The HTTP client and the HTML link extractor are external collaborators, so
they enter as parameters: `HttpOutcome` is what one `urlopen` call yields
(a response, an `HTTPError`, or a `URLError`), `decode` models
`bytes.decode(charset)` (`none` = the codec raises), and `getLinks`
models `LinkParser.get_links`. -/

/-- Result of one `urlopen` call: a non-exceptional response carrying
status, declared charset, body bytes and `geturl()`, or one of the two
caught exception classes. -/
inductive HttpOutcome where
  | success (status : Nat) (charset : Option String) (body : List Nat) (geturl : String)
  | httpError (reason : String)
  | urlError (reason : String)
deriving DecidableEq

/-- `process_page` from `crawler.py`.  `Except.error ()` marks an uncaught
exception escaping `process_page` (only the charset-decoding step can
raise one: `page.decode(charset)` is guarded by neither `except` clause). -/
def process_page (decode : String → List Nat → Option String)
    (getLinks : String → List String) (url : String) (collect_links : Bool)
    (resp : HttpOutcome) : Except Unit ResponseResult :=
  match resp with
  | .success status charset body geturl =>
    if status < 400 ∧ collect_links then
      let cs := match charset with
        | none => "utf-8"
        | some c => if c = "" then ("utf-8") else c
      match decode cs body with
      | none => .error ()
      | some page => .ok ⟨url, some status, "", getLinks page, geturl⟩
    else .ok ⟨url, some status, "", [], geturl⟩
  | .httpError reason => .ok ⟨url, none, "Server error: " ++ reason, [], ""⟩
  | .urlError reason => .ok ⟨url, none, "Network error: " ++ reason, [], ""⟩

/-- Strict UTF-8 decoder over byte values (rejecting continuation-byte
errors, overlong forms, surrogates and code points above `0x10FFFF`),
modelling CPython's `utf-8` codec; `none` models `UnicodeDecodeError`. -/
def utf8Decode : List Nat → Option (List Char)
  | [] => some []
  | b :: bs =>
    if b < 0x80 then
      (utf8Decode bs).map (fun cs => Char.ofNat b :: cs)
    else if b < 0xC2 then none
    else if b < 0xE0 then
      match bs with
      | b1 :: bs2 =>
        if 0x80 ≤ b1 ∧ b1 < 0xC0 then
          (utf8Decode bs2).map (fun cs => Char.ofNat ((b - 0xC0) * 0x40 + (b1 - 0x80)) :: cs)
        else none
      | [] => none
    else if b < 0xF0 then
      match bs with
      | b1 :: b2 :: bs3 =>
        if (0x80 ≤ b1 ∧ b1 < 0xC0) ∧ (0x80 ≤ b2 ∧ b2 < 0xC0) ∧
            (b = 0xE0 → 0xA0 ≤ b1) ∧ (b = 0xED → b1 < 0xA0) then
          (utf8Decode bs3).map (fun cs =>
            Char.ofNat ((b - 0xE0) * 0x1000 + (b1 - 0x80) * 0x40 + (b2 - 0x80)) :: cs)
        else none
      | _ => none
    else if b < 0xF5 then
      match bs with
      | b1 :: b2 :: b3 :: bs4 =>
        if (0x80 ≤ b1 ∧ b1 < 0xC0) ∧ (0x80 ≤ b2 ∧ b2 < 0xC0) ∧ (0x80 ≤ b3 ∧ b3 < 0xC0) ∧
            (b = 0xF0 → 0x90 ≤ b1) ∧ (b = 0xF4 → b1 < 0x90) then
          (utf8Decode bs4).map (fun cs =>
            Char.ofNat ((b - 0xF0) * 0x40000 + (b1 - 0x80) * 0x1000 +
              (b2 - 0x80) * 0x40 + (b3 - 0x80)) :: cs)
        else none
      | _ => none
    else none

/-- Concrete instantiation of the `decode` collaborator for evaluating the
model: the `utf-8` codec, strict.  Other charsets are not modelled and
map to `none`. -/
def pyDecode (charset : String) (body : List Nat) : Option String :=
  if charset = "utf-8" then (utf8Decode body).map (fun cs => String.mk cs) else none

/-! ## Reporter (`print_results`) -/

/-- Python's rendering of the optional status in the report line. -/
def formatStatus : Option Nat → String
  | none => "None"
  | some s => toString s

/-- One line of `print_results`:
`'"{}" status:{} error:{}'.format(url, data['status'], data['error'])`. -/
def formatLine (url : String) (o : Outcome) : String :=
  "\"" ++ url ++ "\" status:" ++ formatStatus o.status ++ " error:" ++ o.error

/-- The guard `data['error'] or data['status'] > 400` of `print_results`.
`Except.error ()` models the `TypeError` Python raises when comparing
`None > 400` (reached only when the error string is empty and the status
is absent). -/
def reportsEntry (o : Outcome) : Except Unit Bool :=
  if o.error ≠ "" then .ok true
  else
    match o.status with
    | some s => .ok (decide (400 < s))
    | none => .error ()

/-- `print_results` from `crawler.py`, returning the report lines emitted
for each dictionary entry in iteration order (pending/placeholder `None`
entries are skipped). -/
def print_results : CrawlDict → Except Unit (List String)
  | [] => .ok []
  | (url, data) :: rest =>
    match data with
    | none => print_results rest
    | some o =>
      match reportsEntry o with
      | .error e => .error e
      | .ok b =>
        match print_results rest with
        | .error e => .error e
        | .ok lines => .ok (if b then formatLine url o :: lines else lines)

/-! ## Crawl coordinator (the loop of `main`, lines 199-241)

The coordinator is single-threaded: it drains `result_queue` one
`ResponseResult` at a time and expands it.  We model a run as a sequence
of such expansion steps over the set of created-but-unprocessed tasks;
the nondeterministic choice index models the arbitrary order in which
worker results become available.  `fetch` abstracts what a worker's
`process_page` call returns for a given task (the `url` field of the
result is always the task's url, as in `process_page`). -/

/-- The per-fetch data supplied by the worker collaborator (everything in
a `ResponseResult` except the echoed request url). -/
structure FetchData where
  status : Option Nat
  error : String
  links : List String
  redirect : String
deriving DecidableEq

/-- Assemble the `ResponseResult` a worker delivers for a task. -/
def mkResult (fetch : String → Bool → FetchData) (t : Task) : ResponseResult :=
  let f := fetch t.url t.collect_links
  ⟨t.url, f.status, f.error, f.links, f.redirect⟩

/-- Lines 220-221: drop the link if, after fragment stripping, it is
empty or starts with `javascript:`, `mailto:` or `whatsapp:`. -/
def skipLink (link : String) : Bool :=
  link == "" || pyStartsWith link ("javascript:") ||
    pyStartsWith link ("mailto:") || pyStartsWith link ("whatsapp:")

/-- Lines 223-227: resolve a relative link, against `result.url` when
`result.redirect` is non-empty and against `result.redirect` otherwise. -/
def resolve_link (r : ResponseResult) (link : String) : String :=
  if is_relative link then
    if r.redirect ≠ "" then restore_relative_url link r.url
    else restore_relative_url link r.redirect
  else link

/-- Lines 219-235, body of `for link in result.links`: clean the fragment,
apply the skip test, resolve, and if unseen insert as pending and create a
`Task` whose `collect_links` is `is_same_domain(link, root_url)`.  The
accumulator carries the dictionary and the tasks created so far. -/
def processLink (root : String) (r : ResponseResult)
    (acc : CrawlDict × List Task) (link0 : String) : CrawlDict × List Task :=
  let link1 := clean_fragments link0
  if skipLink link1 then acc
  else
    let link2 := resolve_link r link1
    if dictMem acc.1 link2 then acc
    else (dictSet acc.1 link2 none,
          acc.2 ++ [⟨link2, is_same_domain link2 root⟩])

/-- Lines 213-235, processing one drained `ResponseResult`: store the
outcome under `result.url`, register `result.redirect` as a `None`
placeholder when non-empty, store the outcome again, then expand the
links.  Returns the updated dictionary and the newly created tasks. -/
def expandResult (root : String) (d : CrawlDict) (r : ResponseResult) :
    CrawlDict × List Task :=
  let d1 := dictSet d r.url (some ⟨r.status, r.error⟩)
  let d2 := if r.redirect ≠ "" then dictSet d1 r.redirect none else d1
  let d3 := dictSet d2 r.url (some ⟨r.status, r.error⟩)
  r.links.foldl (processLink root r) (d3, [])

/-- Coordinator state: the frontier dictionary, the audit list of every
`Task` ever put on `task_queue`, the created-but-not-yet-processed tasks,
and how many results have been processed. -/
structure SysState where
  dict : CrawlDict
  createdTasks : List Task
  pending : List Task
  processed : Nat
deriving DecidableEq

/-- Process the result of pending task `t`, `rest` being the remaining
pending tasks. -/
def stepTask (fetch : String → Bool → FetchData) (root : String)
    (s : SysState) (t : Task) (rest : List Task) : SysState :=
  let dn := expandResult root s.dict (mkResult fetch t)
  { dict := dn.1
    createdTasks := s.createdTasks ++ dn.2
    pending := rest ++ dn.2
    processed := s.processed + 1 }

/-- One coordinator step: process the `i`-th outstanding task's result
(the index models the order in which worker results arrive); an
out-of-range index changes nothing. -/
def stepChoice (fetch : String → Bool → FetchData) (root : String)
    (s : SysState) (i : Nat) : SysState :=
  match s.pending.get? i with
  | none => s
  | some t => stepTask fetch root s t (s.pending.eraseIdx i)

/-- Run the coordinator under a given schedule of result arrivals. -/
def runFrom (fetch : String → Bool → FetchData) (root : String) :
    SysState → List Nat → SysState
  | s, [] => s
  | s, i :: is => runFrom fetch root (stepChoice fetch root s i) is

/-- Line 199: the initial state right after the seed task is enqueued. -/
def initState (seedUrl : String) : SysState :=
  { dict := []
    createdTasks := [⟨seedUrl, true⟩]
    pending := [⟨seedUrl, true⟩]
    processed := 0 }

/-- `main` up to the crawl loop: canonicalize the seed
(`get_base_url`), derive the root (`get_root_url`), seed the frontier,
then run the loop under the given schedule. -/
def mainRun (fetch : String → Bool → FetchData) (input : String)
    (choices : List Nat) : SysState :=
  runFrom fetch (get_root_url (get_base_url input)) (initState (get_base_url input)) choices

/-- The crawl loop driven to quiescence: keep processing the oldest
outstanding result while any remains, up to `fuel` steps.  The loop of
`main` reaches `DONE` exactly when the pending set empties. -/
def runLoop (fetch : String → Bool → FetchData) (root : String) :
    Nat → SysState → SysState
  | 0, s => s
  | n + 1, s =>
    match s.pending with
    | [] => s
    | t :: rest => runLoop fetch root n (stepTask fetch root s t rest)

/-- The resolved URLs that the expansion of result `r` can ever insert:
each raw link, fragment-cleaned, that survives the skip test, after
resolution. -/
def resolvedLinksOf (r : ResponseResult) (links : List String) : List String :=
  links.filterMap (fun l =>
    let l1 := clean_fragments l
    if skipLink l1 then none else some (resolve_link r l1))

/-- All resolved URLs of a result's own link list. -/
def resolvedLinks (r : ResponseResult) : List String :=
  resolvedLinksOf r r.links

/-! ## Dictionary lemmas -/

theorem dictFind_set_self (d : CrawlDict) (k : String) (v : Option Outcome) :
    dictFind (dictSet d k v) k = some v := by
  induction d with
  | nil => simp [dictSet, dictFind]
  | cons p rest ih =>
    obtain ⟨k', v'⟩ := p
    by_cases h : k' = k
    · simp [dictSet, h, dictFind]
    · simp [dictSet, h, dictFind, ih]

theorem dictFind_set_ne (d : CrawlDict) (k : String) (v : Option Outcome)
    (k' : String) (h : k' ≠ k) :
    dictFind (dictSet d k v) k' = dictFind d k' := by
  induction d with
  | nil => simp [dictSet, dictFind, Ne.symm h]
  | cons p rest ih =>
    obtain ⟨k0, v0⟩ := p
    by_cases h0 : k0 = k
    · subst h0
      simp [dictSet, dictFind, Ne.symm h]
    · simp [dictSet, h0, dictFind, ih]

theorem dictMem_set_self (d : CrawlDict) (k : String) (v : Option Outcome) :
    dictMem (dictSet d k v) k = true := by
  simp [dictMem, dictFind_set_self]

theorem dictMem_set_mono (d : CrawlDict) (k : String) (v : Option Outcome)
    (k' : String) (h : dictMem d k' = true) :
    dictMem (dictSet d k v) k' = true := by
  by_cases hk : k' = k
  · subst hk; simp [dictMem, dictFind_set_self]
  · simpa [dictMem, dictFind_set_ne d k v k' hk] using h

theorem mem_dictSet_cases (d : CrawlDict) (k : String) (v : Option Outcome)
    (p : String × Option Outcome) :
    p ∈ dictSet d k v → p = (k, v) ∨ p ∈ d := by
  induction d with
  | nil => intro h; exact Or.inl (by simpa [dictSet] using h)
  | cons q rest ih =>
    obtain ⟨k0, v0⟩ := q
    intro h
    simp only [dictSet] at h
    by_cases h0 : k0 = k
    · rw [if_pos h0] at h
      rcases List.mem_cons.mp h with h1 | h1
      · exact Or.inl h1
      · exact Or.inr (List.mem_cons_of_mem _ h1)
    · rw [if_neg h0] at h
      rcases List.mem_cons.mp h with h1 | h1
      · exact Or.inr (by simp [h1])
      · rcases ih h1 with h2 | h2
        · exact Or.inl h2
        · exact Or.inr (List.mem_cons_of_mem _ h2)

/-! ## Link-expansion lemmas -/

theorem resolvedLinksOf_cons (r : ResponseResult) (l : String) (ls : List String) :
    resolvedLinksOf r (l :: ls) =
      (if skipLink (clean_fragments l) then []
       else [resolve_link r (clean_fragments l)]) ++ resolvedLinksOf r ls := by
  by_cases h : skipLink (clean_fragments l)
  · simp [resolvedLinksOf, h]
  · simp [resolvedLinksOf, h]

/-- Each `processLink` step either leaves the accumulator unchanged or
inserts one fresh resolved URL as pending and appends the corresponding
task. -/
theorem processLink_cases (root : String) (r : ResponseResult)
    (acc : CrawlDict × List Task) (link : String) :
    processLink root r acc link = acc ∨
    ∃ u, dictMem acc.1 u = false ∧ u ∈ resolvedLinksOf r [link] ∧
      processLink root r acc link =
        (dictSet acc.1 u none, acc.2 ++ [⟨u, is_same_domain u root⟩]) := by
  by_cases hs : skipLink (clean_fragments link)
  · exact Or.inl (by simp [processLink, hs])
  · by_cases hm : dictMem acc.1 (resolve_link r (clean_fragments link)) = true
    · exact Or.inl (by simp [processLink, hs, hm])
    · refine Or.inr ⟨resolve_link r (clean_fragments link), ?_, ?_, ?_⟩
      · simpa using hm
      · simp [resolvedLinksOf, hs]
      · simp [processLink, hs, hm]

theorem foldl_processLink_memMono (root : String) (r : ResponseResult) :
    ∀ (links : List String) (acc : CrawlDict × List Task) (k : String),
      dictMem acc.1 k = true →
      dictMem (links.foldl (processLink root r) acc).1 k = true := by
  intro links
  induction links with
  | nil => intro acc k h; simpa using h
  | cons l ls ih =>
    intro acc k h
    rw [List.foldl_cons]
    rcases processLink_cases root r acc l with hc | ⟨u, _, _, hc⟩
    · rw [hc]; exact ih acc k h
    · rw [hc]; exact ih _ k (dictMem_set_mono _ _ _ _ h)

theorem foldl_processLink_findPres (root : String) (r : ResponseResult) :
    ∀ (links : List String) (acc : CrawlDict × List Task) (k : String)
      (v : Option Outcome), dictFind acc.1 k = some v →
      dictFind (links.foldl (processLink root r) acc).1 k = some v := by
  intro links
  induction links with
  | nil => intro acc k v h; simpa using h
  | cons l ls ih =>
    intro acc k v h
    rw [List.foldl_cons]
    rcases processLink_cases root r acc l with hc | ⟨u, hu, _, hc⟩
    · rw [hc]; exact ih acc k v h
    · have hk : k ≠ u := by
        intro he
        subst he
        simp only [dictMem, h] at hu
        simp at hu
      rw [hc]
      refine ih _ k v ?_
      simpa [dictFind_set_ne _ u none k hk] using h

theorem foldl_processLink_entries (root : String) (r : ResponseResult) :
    ∀ (links : List String) (acc : CrawlDict × List Task)
      (p : String × Option Outcome),
      p ∈ (links.foldl (processLink root r) acc).1 →
      p ∈ acc.1 ∨ p.2 = none := by
  intro links
  induction links with
  | nil => intro acc p h; exact Or.inl (by simpa using h)
  | cons l ls ih =>
    intro acc p h
    rw [List.foldl_cons] at h
    rcases processLink_cases root r acc l with hc | ⟨u, _, _, hc⟩
    · rw [hc] at h; exact ih acc p h
    · rw [hc] at h
      rcases ih _ p h with h' | h'
      · rcases mem_dictSet_cases _ _ _ _ h' with h'' | h''
        · exact Or.inr (by simp [h''])
        · exact Or.inl h''
      · exact Or.inr h'

theorem foldl_processLink_tasks (root : String) (r : ResponseResult) :
    ∀ (links : List String) (acc : CrawlDict × List Task) (t : Task),
      t ∈ (links.foldl (processLink root r) acc).2 →
      t ∈ acc.2 ∨
        (t.collect_links = is_same_domain t.url root ∧
          t.url ∈ resolvedLinksOf r links) := by
  intro links
  induction links with
  | nil => intro acc t h; exact Or.inl (by simpa using h)
  | cons l ls ih =>
    intro acc t h
    rw [List.foldl_cons] at h
    rcases processLink_cases root r acc l with hc | ⟨u, _, humem, hc⟩
    · rw [hc] at h
      rcases ih acc t h with h' | ⟨h1, h2⟩
      · exact Or.inl h'
      · exact Or.inr ⟨h1, by
          rw [resolvedLinksOf_cons]
          exact List.mem_append_right _ h2⟩
    · rw [hc] at h
      rcases ih _ t h with h' | ⟨h1, h2⟩
      · rcases List.mem_append.mp h' with h'' | h''
        · exact Or.inl h''
        · have ht : t = (⟨u, is_same_domain u root⟩ : Task) := by simpa using h''
          have hu2 : u ∈ (if skipLink (clean_fragments l) then []
              else [resolve_link r (clean_fragments l)]) := by
            have he : resolvedLinksOf r [l] =
                (if skipLink (clean_fragments l) then []
                 else [resolve_link r (clean_fragments l)]) ++ resolvedLinksOf r [] :=
              resolvedLinksOf_cons r l []
            rw [he] at humem
            simpa [resolvedLinksOf] using humem
          refine Or.inr ⟨by simp [ht], ?_⟩
          rw [ht, resolvedLinksOf_cons]
          exact List.mem_append_left _ (by simpa using hu2)
      · exact Or.inr ⟨h1, by
          rw [resolvedLinksOf_cons]
          exact List.mem_append_right _ h2⟩

/-- The workhorse invariant of one expansion fold: if every URL in `P` and
every already-accumulated task URL is in the dictionary and those URLs are
pairwise distinct, the same holds after the fold. -/
theorem foldl_processLink_inv (root : String) (r : ResponseResult) :
    ∀ (links : List String) (acc : CrawlDict × List Task) (P : List String),
      (∀ u ∈ P ++ acc.2.map Task.url, dictMem acc.1 u = true) →
      (P ++ acc.2.map Task.url).Nodup →
      (∀ u ∈ P ++ ((links.foldl (processLink root r) acc).2.map Task.url),
        dictMem (links.foldl (processLink root r) acc).1 u = true) ∧
      (P ++ ((links.foldl (processLink root r) acc).2.map Task.url)).Nodup := by
  intro links
  induction links with
  | nil => intro acc P h1 h2; exact ⟨by simpa using h1, by simpa using h2⟩
  | cons l ls ih =>
    intro acc P h1 h2
    rw [List.foldl_cons]
    rcases processLink_cases root r acc l with hc | ⟨u, hu, _, hc⟩
    · rw [hc]; exact ih acc P h1 h2
    · rw [hc]
      have hnotin : u ∉ P ++ acc.2.map Task.url := by
        intro hin
        have h1u := h1 u hin
        rw [h1u] at hu
        exact Bool.noConfusion hu
      refine ih _ P ?_ ?_
      · intro x hx
        simp only [List.map_append, List.map_cons, List.map_nil] at hx
        rw [← List.append_assoc] at hx
        rcases List.mem_append.mp hx with hx' | hx'
        · exact dictMem_set_mono _ _ _ _ (h1 x hx')
        · have hxu : x = u := by simpa using hx'
          rw [hxu]; exact dictMem_set_self _ _ _
      · simp only [List.map_append, List.map_cons, List.map_nil]
        rw [← List.append_assoc, List.nodup_append]
        refine ⟨h2, List.nodup_singleton u, ?_⟩
        intro x hx hxmem
        have hxu : x = u := by simpa using hxmem
        subst hxu
        exact hnotin hx

/-! ## Basic list helpers -/

theorem list_get?_mem {α : Type} : ∀ (l : List α) (i : Nat) (a : α),
    l.get? i = some a → a ∈ l := by
  intro l
  induction l with
  | nil => intro i a h; simp [List.get?] at h
  | cons x xs ih =>
    intro i a h
    cases i with
    | zero =>
      simp only [List.get?] at h
      exact List.mem_cons.mpr (Or.inl (Option.some.inj h).symm)
    | succ n =>
      simp only [List.get?] at h
      exact List.mem_cons_of_mem _ (ih n a h)

theorem list_eraseIdx_len {α : Type} : ∀ (l : List α) (i : Nat) (a : α),
    l.get? i = some a → (l.eraseIdx i).length + 1 = l.length := by
  intro l
  induction l with
  | nil => intro i a h; simp [List.get?] at h
  | cons x xs ih =>
    intro i a h
    cases i with
    | zero => simp [List.eraseIdx]
    | succ n =>
      simp only [List.get?] at h
      have := ih n a h
      simp only [List.eraseIdx, List.length_cons]
      omega

theorem list_eraseIdx_mem {α : Type} : ∀ (l : List α) (i : Nat) (x : α),
    x ∈ l.eraseIdx i → x ∈ l := by
  intro l
  induction l with
  | nil => intro i x h; simp [List.eraseIdx] at h
  | cons y ys ih =>
    intro i x h
    cases i with
    | zero => exact List.mem_cons_of_mem _ (by simpa [List.eraseIdx] using h)
    | succ n =>
      simp only [List.eraseIdx] at h
      rcases List.mem_cons.mp h with h1 | h1
      · exact List.mem_cons.mpr (Or.inl h1)
      · exact List.mem_cons_of_mem _ (ih n x h1)

/-! ## Coordinator invariants -/

/-- The URLs of every task ever created. -/
def takenUrls (s : SysState) : List String := s.createdTasks.map Task.url

/-- The three dictionary writes of lines 214-217, before the link loop. -/
def writeBack (d : CrawlDict) (r : ResponseResult) : CrawlDict :=
  dictSet
    (if r.redirect ≠ "" then
      dictSet (dictSet d r.url (some ⟨r.status, r.error⟩)) r.redirect none
     else dictSet d r.url (some ⟨r.status, r.error⟩))
    r.url (some ⟨r.status, r.error⟩)

theorem expandResult_eq (root : String) (d : CrawlDict) (r : ResponseResult) :
    expandResult root d r = r.links.foldl (processLink root r) (writeBack d r, []) := rfl

theorem writeBack_mem_mono (d : CrawlDict) (r : ResponseResult) (k : String)
    (h : dictMem d k = true) : dictMem (writeBack d r) k = true := by
  simp only [writeBack]
  by_cases hred : r.redirect ≠ ""
  · rw [if_pos hred]
    exact dictMem_set_mono _ _ _ _ (dictMem_set_mono _ _ _ _ (dictMem_set_mono _ _ _ _ h))
  · rw [if_neg hred]
    exact dictMem_set_mono _ _ _ _ (dictMem_set_mono _ _ _ _ h)

theorem writeBack_mem_url (d : CrawlDict) (r : ResponseResult) :
    dictMem (writeBack d r) r.url = true :=
  dictMem_set_self _ _ _

/-- Value of any key after the three writes of lines 214-217. -/
theorem writeBack_find (d : CrawlDict) (r : ResponseResult) (k : String) :
    dictFind (writeBack d r) k =
      if k = r.url then some (some ⟨r.status, r.error⟩)
      else if r.redirect ≠ "" ∧ k = r.redirect then some none
      else dictFind d k := by
  simp only [writeBack]
  by_cases h1 : k = r.url
  · rw [if_pos h1, h1]
    exact dictFind_set_self _ _ _
  · rw [if_neg h1, dictFind_set_ne _ _ _ _ h1]
    by_cases hred : r.redirect ≠ ""
    · rw [if_pos hred]
      by_cases h2 : k = r.redirect
      · rw [if_pos ⟨hred, h2⟩, h2]
        exact dictFind_set_self _ _ _
      · rw [if_neg (fun hh => h2 hh.2), dictFind_set_ne _ _ _ _ h2]
        exact dictFind_set_ne _ _ _ _ h1
    · rw [if_neg hred, if_neg (fun hh => hred hh.1)]
      exact dictFind_set_ne _ _ _ _ h1

/-- Run invariant: created-task URLs are pairwise distinct; the task count
balances processed plus outstanding; outstanding tasks were created; and
every created task's URL is in the dictionary (except in the freshly
seeded state, where the single seed task is still outstanding). -/
def Inv (s : SysState) : Prop :=
  (takenUrls s).Nodup ∧
  s.createdTasks.length = s.processed + s.pending.length ∧
  (∀ t ∈ s.pending, t ∈ s.createdTasks) ∧
  ((s.dict = [] ∧ ∃ t0, s.createdTasks = [t0] ∧ s.pending = [t0]) ∨
   (∀ t ∈ s.createdTasks, dictMem s.dict t.url = true))

theorem initState_inv (u : String) : Inv (initState u) := by
  refine ⟨by simp [takenUrls, initState], by simp [initState], ?_,
    Or.inl ⟨rfl, ⟨u, true⟩, rfl, rfl⟩⟩
  intro t htm
  simpa [initState] using htm

theorem stepTask_inv (fetch : String → Bool → FetchData) (root : String)
    (s : SysState) (t : Task) (rest : List Task)
    (hInv : Inv s) (ht : t ∈ s.pending)
    (hlen : rest.length + 1 = s.pending.length)
    (hrest : ∀ x ∈ rest, x ∈ s.pending) :
    Inv (stepTask fetch root s t rest) := by
  obtain ⟨hnodup, hcount, hpend, hdisj⟩ := hInv
  have hmem3 : ∀ u ∈ takenUrls s ++ ([] : List Task).map Task.url,
      dictMem (writeBack s.dict (mkResult fetch t)) u = true := by
    intro u hu
    simp only [List.map_nil, List.append_nil] at hu
    rcases hdisj with ⟨hd0, t0, hc0, hp0⟩ | hall
    · have ht0 : t = t0 := by
        rw [hp0] at ht
        simpa using ht
      have hu0 : u = t0.url := by
        rw [takenUrls, hc0] at hu
        simpa using hu
      have hru : (mkResult fetch t).url = t.url := rfl
      rw [hu0, ← ht0, ← hru]
      exact writeBack_mem_url _ _
    · rcases List.mem_map.mp hu with ⟨t', ht', hturl⟩
      rw [← hturl]
      exact writeBack_mem_mono _ _ _ (hall t' ht')
  have hfold := foldl_processLink_inv root (mkResult fetch t) (mkResult fetch t).links
    (writeBack s.dict (mkResult fetch t), []) (takenUrls s) hmem3 (by simpa using hnodup)
  rw [← expandResult_eq root s.dict (mkResult fetch t)] at hfold
  refine ⟨?_, ?_, ?_, Or.inr ?_⟩
  · show ((s.createdTasks ++ (expandResult root s.dict (mkResult fetch t)).2).map Task.url).Nodup
    rw [List.map_append]
    exact hfold.2
  · show (s.createdTasks ++ _).length = (s.processed + 1) + (rest ++ _).length
    rw [List.length_append, List.length_append]
    omega
  · intro x hx
    rcases List.mem_append.mp hx with hx' | hx'
    · exact List.mem_append_left _ (hpend x (hrest x hx'))
    · exact List.mem_append_right _ hx'
  · intro t' ht'
    rcases List.mem_append.mp ht' with ht'' | ht''
    · exact hfold.1 t'.url (List.mem_append_left _ (List.mem_map_of_mem Task.url ht''))
    · exact hfold.1 t'.url (List.mem_append_right _ (List.mem_map_of_mem Task.url ht''))

theorem stepChoice_inv (fetch : String → Bool → FetchData) (root : String)
    (s : SysState) (i : Nat) (h : Inv s) : Inv (stepChoice fetch root s i) := by
  unfold stepChoice
  cases hg : s.pending.get? i with
  | none => exact h
  | some t =>
    exact stepTask_inv fetch root s t _ h (list_get?_mem _ _ _ hg)
      (list_eraseIdx_len _ _ _ hg) (fun x hx => list_eraseIdx_mem _ _ _ hx)

theorem runFrom_inv (fetch : String → Bool → FetchData) (root : String) :
    ∀ (choices : List Nat) (s : SysState), Inv s → Inv (runFrom fetch root s choices) := by
  intro choices
  induction choices with
  | nil => intro s h; exact h
  | cons i is ih => intro s h; exact ih _ (stepChoice_inv fetch root s i h)

/-- Claim C3: over any run of the coordinator (any seed input, any worker
behaviour, any order of result arrivals), every URL string is the `url` of
at most one created `Task`: no URL is ever fetched twice. -/
theorem claim_C3 (fetch : String → Bool → FetchData) (input : String)
    (choices : List Nat) (u : String) :
    ((mainRun fetch input choices).createdTasks.map Task.url).count u ≤ 1 := by
  have h : Inv (mainRun fetch input choices) :=
    runFrom_inv fetch (get_root_url (get_base_url input)) choices
      (initState (get_base_url input)) (initState_inv _)
  exact List.nodup_iff_count_le_one.mp h.1 u

/-! ## Termination of the crawl loop -/

/-- `Inv` plus: every created task's URL lies in `R`. -/
def InvR (R : List String) (s : SysState) : Prop :=
  Inv s ∧ ∀ t ∈ s.createdTasks, t.url ∈ R

theorem stepTask_invR (fetch : String → Bool → FetchData) (root : String)
    (s : SysState) (R : List String)
    (hclosed : ∀ (t : Task) (v : String), t.url ∈ R →
      v ∈ resolvedLinks (mkResult fetch t) → v ∈ R)
    (h : InvR R s) :
    ∀ (t : Task) (rest : List Task), s.pending = t :: rest →
      InvR R (stepTask fetch root s t rest) := by
  intro t rest hp
  obtain ⟨hInv, hR⟩ := h
  have ht : t ∈ s.pending := by rw [hp]; exact List.mem_cons_self _ _
  have htc : t ∈ s.createdTasks := hInv.2.2.1 t ht
  refine ⟨stepTask_inv fetch root s t rest hInv ht (by simp [hp]) ?_, ?_⟩
  · intro x hx
    rw [hp]
    exact List.mem_cons_of_mem _ hx
  · intro t' ht'
    rcases List.mem_append.mp ht' with h1 | h1
    · exact hR t' h1
    · rw [expandResult_eq] at h1
      rcases foldl_processLink_tasks root (mkResult fetch t) _ _ t' h1 with h0 | ⟨_, h2⟩
      · simp at h0
      · exact hclosed t t'.url (hR t htc) h2

theorem runLoop_invR (fetch : String → Bool → FetchData) (root : String)
    (R : List String)
    (hclosed : ∀ (t : Task) (v : String), t.url ∈ R →
      v ∈ resolvedLinks (mkResult fetch t) → v ∈ R) :
    ∀ (n : Nat) (s : SysState), InvR R s → InvR R (runLoop fetch root n s) := by
  intro n
  induction n with
  | zero => intro s h; exact h
  | succ m ih =>
    intro s h
    unfold runLoop
    cases hp : s.pending with
    | nil => exact h
    | cons t rest =>
      exact ih _ (stepTask_invR fetch root s R hclosed h t rest hp)

theorem runLoop_progress (fetch : String → Bool → FetchData) (root : String) :
    ∀ (n : Nat) (s : SysState),
      (runLoop fetch root n s).pending = [] ∨
      s.processed + n ≤ (runLoop fetch root n s).processed := by
  intro n
  induction n with
  | zero => intro s; right; simp [runLoop]
  | succ m ih =>
    intro s
    unfold runLoop
    cases hp : s.pending with
    | nil => exact Or.inl hp
    | cons t rest =>
      rcases ih (stepTask fetch root s t rest) with h | h
      · exact Or.inl h
      · right
        show s.processed + (m + 1) ≤
          (runLoop fetch root m (stepTask fetch root s t rest)).processed
        have hpr : (stepTask fetch root s t rest).processed = s.processed + 1 := rfl
        rw [hpr] at h
        omega

theorem invR_processed_le (R : List String) (s : SysState) (h : InvR R s) :
    s.processed ≤ R.length := by
  obtain ⟨⟨hnodup, hcount, _, _⟩, hR⟩ := h
  have hsub : ∀ u ∈ takenUrls s, u ∈ R := by
    intro u hu
    rcases List.mem_map.mp hu with ⟨t, ht, rfl⟩
    exact hR t ht
  have h1 : (takenUrls s).toFinset.card = (takenUrls s).length :=
    List.toFinset_card_of_nodup hnodup
  have h2 : (takenUrls s).toFinset ⊆ R.toFinset := by
    intro u hu
    rw [List.mem_toFinset] at hu ⊢
    exact hsub u hu
  have h3 := Finset.card_le_card h2
  have h4 := R.toFinset_card_le
  have hct : (takenUrls s).length = s.createdTasks.length := List.length_map _ _
  omega

/-- Conditional termination of the crawl loop: *provided every task
yields a `ResponseResult`* (the worker model `fetch` is a total function,
so no worker ever dies with an uncaught exception), whenever a finite set
`R` of URLs contains the seed and is closed under link expansion, the
coordinator's drain-and-expand loop empties its outstanding-task set —
i.e. reaches `DONE` — within `|R| + 1` processing steps.  The proviso is
essential: on the real program an undecodable body kills the worker
before it can deliver a result, and the loop then never reaches `DONE`
(see the claim C9 evaluation below). -/
theorem runLoop_done_of_closed (fetch : String → Bool → FetchData) (root seedUrl : String)
    (R : List String) (hseed : seedUrl ∈ R)
    (hclosed : ∀ (t : Task) (v : String), t.url ∈ R →
      v ∈ resolvedLinks (mkResult fetch t) → v ∈ R) :
    (runLoop fetch root (R.length + 1) (initState seedUrl)).pending = [] := by
  have h0 : InvR R (initState seedUrl) := by
    refine ⟨initState_inv _, ?_⟩
    intro t ht
    have ht' : t = (⟨seedUrl, true⟩ : Task) := by simpa [initState] using ht
    rw [ht']
    exact hseed
  rcases runLoop_progress fetch root (R.length + 1) (initState seedUrl) with h | h
  · exact h
  · exfalso
    have hK := runLoop_invR fetch root R hclosed (R.length + 1) _ h0
    have hle := invR_processed_le R _ hK
    have hz : (initState seedUrl).processed = 0 := rfl
    omega

/-- A worker model whose pages contain no links, used to exercise the
conditional termination result on a concrete one-page site. -/
def fetchNoLinks : String → Bool → FetchData := fun _ _ => ⟨some 200, "", [], ""⟩

/-- The conditional termination result applied to a concrete one-page
site whose single fetch completes. -/
theorem runLoop_done_example :
    (runLoop fetchNoLinks ("http://a.com") (["http://a.com"].length + 1)
      (initState ("http://a.com"))).pending = [] :=
  runLoop_done_of_closed fetchNoLinks ("http://a.com") ("http://a.com") (["http://a.com"])
    (List.mem_cons_self _ _)
    (fun _ _ _ hv => absurd hv (List.not_mem_nil _))

/-- Claim C9: the crawl loop does *not* always reach `DONE` on a finite
site.  On the one-page site whose seed fetch returns status 200 with
charset `utf-8` and the undecodable body `[0xFF]` on a collect-links
task, `process_page` raises an uncaught `UnicodeDecodeError`
(`Except.error ()`): the worker delivers no `ResponseResult` and never
calls `task_done`, while the seed task is the one outstanding task of the
round — so `task_queue.join()` blocks forever and the coordinator never
reaches `DONE`, although the set of URLs reachable from the seed is
finite.  Termination holds only under the every-fetch-completes proviso
of the conditional result above. -/
theorem claim_C9_code_eval :
    process_page pyDecode (fun _ => []) ("http://a.com") true
        (HttpOutcome.success 200 (some ("utf-8")) [255] ("http://a.com"))
      = Except.error () ∧
    (initState ("http://a.com")).pending = [Task.mk ("http://a.com") true] ∧
    (initState ("http://a.com")).processed = 0 :=
  ⟨rfl, rfl, rfl⟩

/-! ## Claim C2: frontier monotonicity -/

/-- Claim C2 fixture: a three-page site where `http://a.com` links to `/b`
and `/c`, and `/c` redirects to `/b`. -/
def exFetch2 : String → Bool → FetchData := fun u _ =>
  if u = "http://a.com" then
    ⟨some 200, "", ["http://a.com/b", "http://a.com/c"], "http://a.com"⟩
  else if u = "http://a.com/b" then ⟨some 200, "", [], "http://a.com/b"⟩
  else if u = "http://a.com/c" then ⟨some 200, "", [], "http://a.com/b"⟩
  else ⟨none, "Network error: x", [], ""⟩

/-- Claim C2 counterexample: after two steps the frontier holds the
completed Outcome (`status 200`) for `http://a.com/b`; processing
`http://a.com/c`, whose result redirects to `http://a.com/b`, then
overwrites that completed Outcome with the pending marker `None` — a
transition the claim rules out. -/
theorem claim_C2_counterexample :
    dictFind ((mainRun exFetch2 ("a.com") [0, 0]).dict) ("http://a.com/b")
        = some (some ⟨some 200, ""⟩) ∧
    dictFind ((mainRun exFetch2 ("a.com") [0, 0, 0]).dict) ("http://a.com/b")
        = some none :=
  ⟨by decide, by decide⟩

/-- Claim C2 (amended): frontier keys are never removed — every key
present before an expansion step is present after it — but the transitions
are absent→pending, absent→Outcome, pending→Outcome *and*
Outcome→pending: a completed Outcome can only be reset to the pending
marker when its key is the processed result's redirect target. -/
theorem claim_C2_amended (root : String) (d : CrawlDict) (r : ResponseResult)
    (k : String) :
    (dictMem d k = true → dictMem (expandResult root d r).1 k = true) ∧
    (∀ o : Outcome, dictFind d k = some (some o) →
      dictFind (expandResult root d r).1 k = some none → k = r.redirect) := by
  constructor
  · intro h
    rw [expandResult_eq]
    exact foldl_processLink_memMono _ _ _ _ _ (writeBack_mem_mono _ _ _ h)
  · intro o hfind hnone
    by_cases hk : k = r.redirect
    · exact hk
    · exfalso
      have hwb := writeBack_find d r k
      by_cases hu : k = r.url
      · rw [if_pos hu] at hwb
        have hpres := foldl_processLink_findPres root r r.links (writeBack d r, []) k _ hwb
        rw [← expandResult_eq] at hpres
        rw [hpres] at hnone
        simp at hnone
      · rw [if_neg hu, if_neg (fun hh => hk hh.2), hfind] at hwb
        have hpres := foldl_processLink_findPres root r r.links (writeBack d r, []) k _ hwb
        rw [← expandResult_eq] at hpres
        rw [hpres] at hnone
        simp at hnone

/-- Claim C2 witness: the amended theorem applied to a frontier holding a
completed Outcome for key `a` and a result redirecting to `a`. -/
theorem claim_C2_witness :
    dictMem (expandResult ("http://a.com")
        [("a", some ⟨some 200, ""⟩)] ⟨"u", some 200, "", [], "a"⟩).1 ("a") = true ∧
    ("a" : String) = (ResponseResult.mk ("u") (some 200) ("") [] ("a")).redirect :=
  ⟨(claim_C2_amended ("http://a.com") [("a", some ⟨some 200, ""⟩)]
      ⟨"u", some 200, "", [], "a"⟩ ("a")).1 (by decide),
   (claim_C2_amended ("http://a.com") [("a", some ⟨some 200, ""⟩)]
      ⟨"u", some 200, "", [], "a"⟩ ("a")).2 ⟨some 200, ""⟩ (by decide) (by decide)⟩

/-! ## Claim C7: the skip predicate -/

/-- Claim C7 fixture: the seed page links to `ftp:`, `tel:` and `mailto:`
URLs. -/
def exFetch7 : String → Bool → FetchData := fun u _ =>
  if u = "http://a.com" then
    ⟨some 200, "", ["ftp://h/x", "tel:+123", "mailto:foo@bar.com"], "http://a.com"⟩
  else ⟨some 200, "", [], u⟩

/-- Claim C7 counterexample: the `ftp:` and `tel:` links — non-fetchable,
non-http(s) schemes — are *not* discarded: both enter the frontier and
each gets a `FetchTask` (only the `mailto:` link is skipped). -/
theorem claim_C7_counterexample :
    (Task.mk ("ftp://h/x") false) ∈ (mainRun exFetch7 ("a.com") [0]).createdTasks ∧
    dictMem ((mainRun exFetch7 ("a.com") [0]).dict) ("ftp://h/x") = true ∧
    (Task.mk ("tel:+123") false) ∈ (mainRun exFetch7 ("a.com") [0]).createdTasks ∧
    dictMem ((mainRun exFetch7 ("a.com") [0]).dict) ("tel:+123") = true :=
  ⟨by decide, by decide, by decide, by decide⟩

/-- Claim C7 (amended): a discovered link is discarded exactly when, after
fragment stripping, it is empty or starts with `javascript:`, `mailto:` or
`whatsapp:` (the `skipLink` test); any other link — including `ftp:` or
`tel:` schemes — is resolved and, when unseen, inserted into the frontier
with a new `FetchTask`. -/
theorem claim_C7_amended (root : String) (r : ResponseResult)
    (acc : CrawlDict × List Task) (link : String) :
    (skipLink (clean_fragments link) = true → processLink root r acc link = acc) ∧
    (skipLink (clean_fragments link) = false →
      dictMem acc.1 (resolve_link r (clean_fragments link)) = false →
      processLink root r acc link =
        (dictSet acc.1 (resolve_link r (clean_fragments link)) none,
         acc.2 ++ [⟨resolve_link r (clean_fragments link),
                    is_same_domain (resolve_link r (clean_fragments link)) root⟩])) := by
  constructor
  · intro h
    simp [processLink, h]
  · intro h1 h2
    simp [processLink, h1, h2]

/-- Claim C7 witness: the amended theorem applied to a `mailto:` link
(discarded) and a `tel:` link (inserted with a task). -/
theorem claim_C7_witness :
    processLink ("http://a.com") ⟨"http://a.com", some 200, "", [], "http://a.com"⟩
        ([("http://a.com", some ⟨some 200, ""⟩)], []) ("mailto:foo@bar.com")
      = ([("http://a.com", some ⟨some 200, ""⟩)], []) ∧
    processLink ("http://a.com") ⟨"http://a.com", some 200, "", [], "http://a.com"⟩
        ([("http://a.com", some ⟨some 200, ""⟩)], []) ("tel:+123")
      = (dictSet [("http://a.com", some ⟨some 200, ""⟩)]
          (resolve_link ⟨"http://a.com", some 200, "", [], "http://a.com"⟩
            (clean_fragments ("tel:+123"))) none,
         [] ++ [⟨resolve_link ⟨"http://a.com", some 200, "", [], "http://a.com"⟩
                   (clean_fragments ("tel:+123")),
                 is_same_domain
                   (resolve_link ⟨"http://a.com", some 200, "", [], "http://a.com"⟩
                     (clean_fragments ("tel:+123"))) ("http://a.com")⟩]) :=
  ⟨(claim_C7_amended _ _ _ _).1 (by decide),
   (claim_C7_amended _ _ _ _).2 (by decide) (by decide)⟩

/-! ## Claim C8: the collect-links classification -/

theorem stepTask_collect (fetch : String → Bool → FetchData) (root : String)
    (seedUrl : String) (s : SysState) (t : Task) (rest : List Task)
    (h : ∀ t' ∈ s.createdTasks, t'.url = seedUrl ∨
        t'.collect_links = is_same_domain t'.url root) :
    ∀ t' ∈ (stepTask fetch root s t rest).createdTasks,
      t'.url = seedUrl ∨ t'.collect_links = is_same_domain t'.url root := by
  intro t' ht'
  rcases List.mem_append.mp ht' with h1 | h1
  · exact h t' h1
  · rw [expandResult_eq] at h1
    rcases foldl_processLink_tasks root _ _ _ t' h1 with h0 | ⟨hcoll, _⟩
    · simp at h0
    · exact Or.inr hcoll

theorem stepChoice_collect (fetch : String → Bool → FetchData) (root : String)
    (seedUrl : String) (s : SysState) (i : Nat)
    (h : ∀ t' ∈ s.createdTasks, t'.url = seedUrl ∨
        t'.collect_links = is_same_domain t'.url root) :
    ∀ t' ∈ (stepChoice fetch root s i).createdTasks,
      t'.url = seedUrl ∨ t'.collect_links = is_same_domain t'.url root := by
  unfold stepChoice
  cases hg : s.pending.get? i with
  | none => exact h
  | some t => exact stepTask_collect fetch root seedUrl s t _ h

theorem runFrom_collect (fetch : String → Bool → FetchData) (root : String)
    (seedUrl : String) :
    ∀ (choices : List Nat) (s : SysState),
      (∀ t' ∈ s.createdTasks, t'.url = seedUrl ∨
        t'.collect_links = is_same_domain t'.url root) →
      ∀ t' ∈ (runFrom fetch root s choices).createdTasks,
        t'.url = seedUrl ∨ t'.collect_links = is_same_domain t'.url root := by
  intro choices
  induction choices with
  | nil => intro s h; exact h
  | cons i is ih =>
    intro s h
    exact ih _ (stepChoice_collect fetch root seedUrl s i h)

/-- Claim C8 fixture: seed host `www.example.com`, whose page links back
to its own host and to the bare root domain. -/
def exFetch8 : String → Bool → FetchData := fun u _ =>
  if u = "http://www.example.com" then
    ⟨some 200, "", ["http://www.example.com/a", "http://example.com/b"],
     "http://www.example.com"⟩
  else ⟨some 200, "", [], u⟩

/-- Claim C8 counterexample: with seed `www.example.com`, the discovered
link `http://www.example.com/a` — whose host is exactly the seed's host —
is enqueued with `collect_links = false`, because the comparison is
against the root domain `example.com`, not the seed's host. -/
theorem claim_C8_counterexample :
    (Task.mk ("http://www.example.com/a") false)
        ∈ (mainRun exFetch8 ("www.example.com") [0]).createdTasks ∧
    (urlsplit ("http://www.example.com/a")).netloc
        = (urlsplit (get_base_url ("www.example.com"))).netloc :=
  ⟨by decide, by decide⟩

/-- Claim C8 (amended): every created task is the seed task or has
`collect_links = is_same_domain(url, root_url)` — host equality with the
root domain (the last two labels of the seed's host), which coincides
with the seed's own host only when that host has at most two labels. -/
theorem claim_C8_amended (fetch : String → Bool → FetchData) (input : String)
    (choices : List Nat) :
    ∀ t ∈ (mainRun fetch input choices).createdTasks,
      t.url = get_base_url input ∨
      t.collect_links = is_same_domain t.url (get_root_url (get_base_url input)) := by
  apply runFrom_collect
  intro t ht
  have ht' : t = (⟨get_base_url input, true⟩ : Task) := by simpa [initState] using ht
  exact Or.inl (by rw [ht'])

/-- Claim C8 witness: the amended theorem applied to the task created for
`http://www.example.com/a` in the fixture run. -/
theorem claim_C8_witness :
    (Task.mk ("http://www.example.com/a") false).url = get_base_url ("www.example.com") ∨
    (Task.mk ("http://www.example.com/a") false).collect_links
      = is_same_domain (Task.mk ("http://www.example.com/a") false).url
          (get_root_url (get_base_url ("www.example.com"))) :=
  claim_C8_amended exFetch8 ("www.example.com") [0]
    (Task.mk ("http://www.example.com/a") false) (by decide)

/-! ## Claim C10: outcome shape and reporter safety -/

/-- The HTTP-client contract: a non-exceptional response carries a status
below 400 (`urlopen` surfaces every status of 400 and above as an
`HTTPError` exception). -/
def RespOk : HttpOutcome → Prop
  | .success st _ _ _ => st < 400
  | .httpError _ => True
  | .urlError _ => True

/-- The outcome dichotomy: status present and below 400 with empty error,
or status absent with non-empty error. -/
def OutcomeGood (o : Outcome) : Prop :=
  (∃ s, o.status = some s ∧ s < 400 ∧ o.error = "") ∨
  (o.status = none ∧ o.error ≠ "")

theorem string_append_ne_empty (s t : String) (h : s ≠ "") : s ++ t ≠ "" := by
  intro hc
  apply h
  have h2 : s.data ++ t.data = ([] : List Char) := by
    have h3 := congrArg String.data hc
    simpa using h3
  have h4 : s.data = [] := (List.append_eq_nil.mp h2).1
  cases s with
  | mk data =>
    simp only at h4
    rw [h4]

/-- Every `ResponseResult` that `process_page` actually returns (no
uncaught exception) satisfies the outcome dichotomy, given the HTTP
client's contract. -/
theorem process_page_outcome (decode : String → List Nat → Option String)
    (getLinks : String → List String) (url : String) (c : Bool)
    (resp : HttpOutcome) (r : ResponseResult) (hresp : RespOk resp)
    (h : process_page decode getLinks url c resp = Except.ok r) :
    OutcomeGood ⟨r.status, r.error⟩ := by
  cases resp with
  | success st charset body geturl =>
    have hst : st < 400 := hresp
    simp only [process_page] at h
    split at h
    · split at h
      · exact absurd h (by simp)
      · obtain rfl := Except.ok.inj h
        exact Or.inl ⟨st, rfl, hst, rfl⟩
    · obtain rfl := Except.ok.inj h
      exact Or.inl ⟨st, rfl, hst, rfl⟩
  | httpError reason =>
    obtain rfl := Except.ok.inj h
    exact Or.inr ⟨rfl, string_append_ne_empty _ _ (by decide)⟩
  | urlError reason =>
    obtain rfl := Except.ok.inj h
    exact Or.inr ⟨rfl, string_append_ne_empty _ _ (by decide)⟩

theorem mem_writeBack_cases (d : CrawlDict) (r : ResponseResult)
    (p : String × Option Outcome) (h : p ∈ writeBack d r) :
    p ∈ d ∨ p = (r.url, some ⟨r.status, r.error⟩) ∨ p.2 = none := by
  simp only [writeBack] at h
  rcases mem_dictSet_cases _ _ _ _ h with h1 | h1
  · exact Or.inr (Or.inl h1)
  · by_cases hred : r.redirect ≠ ""
    · rw [if_pos hred] at h1
      rcases mem_dictSet_cases _ _ _ _ h1 with h2 | h2
      · exact Or.inr (Or.inr (by simp [h2]))
      · rcases mem_dictSet_cases _ _ _ _ h2 with h3 | h3
        · exact Or.inr (Or.inl h3)
        · exact Or.inl h3
    · rw [if_neg hred] at h1
      rcases mem_dictSet_cases _ _ _ _ h1 with h2 | h2
      · exact Or.inr (Or.inl h2)
      · exact Or.inl h2

theorem mem_expandResult_cases (root : String) (d : CrawlDict)
    (r : ResponseResult) (p : String × Option Outcome)
    (h : p ∈ (expandResult root d r).1) :
    p ∈ d ∨ p = (r.url, some ⟨r.status, r.error⟩) ∨ p.2 = none := by
  rw [expandResult_eq] at h
  rcases foldl_processLink_entries root r r.links _ p h with h1 | h1
  · exact mem_writeBack_cases d r p h1
  · exact Or.inr (Or.inr h1)

theorem runFrom_outcomes (fetch : String → Bool → FetchData) (root : String)
    (hfetch : ∀ t : Task,
      OutcomeGood ⟨(mkResult fetch t).status, (mkResult fetch t).error⟩) :
    ∀ (choices : List Nat) (s : SysState),
      (∀ p ∈ s.dict, ∀ o : Outcome, p.2 = some o → OutcomeGood o) →
      (∀ p ∈ (runFrom fetch root s choices).dict, ∀ o : Outcome,
        p.2 = some o → OutcomeGood o) := by
  intro choices
  induction choices with
  | nil => intro s h; exact h
  | cons i is ih =>
    intro s h
    refine ih _ ?_
    unfold stepChoice
    cases hg : s.pending.get? i with
    | none => exact h
    | some t =>
      intro p hp o hpo
      rcases mem_expandResult_cases root s.dict (mkResult fetch t) p hp with h1 | h1 | h1
      · exact h p h1 o hpo
      · have h2 : some (⟨(mkResult fetch t).status, (mkResult fetch t).error⟩ : Outcome)
            = some o := by
          rw [h1] at hpo
          exact hpo
        exact Option.some.inj h2 ▸ hfetch t
      · rw [h1] at hpo
        exact absurd hpo (by simp)

theorem print_results_ok : ∀ (d : CrawlDict),
    (∀ p ∈ d, ∀ o : Outcome, p.2 = some o → OutcomeGood o) →
    ∃ lines, print_results d = Except.ok lines := by
  intro d
  induction d with
  | nil => intro h; exact ⟨[], rfl⟩
  | cons p rest ih =>
    intro h
    obtain ⟨lines, hl⟩ := ih (fun q hq o ho => h q (List.mem_cons_of_mem _ hq) o ho)
    obtain ⟨purl, pval⟩ := p
    cases pval with
    | none => exact ⟨lines, by simpa [print_results] using hl⟩
    | some o =>
      have hgood := h (purl, some o) (List.mem_cons_self _ _) o rfl
      have hrep : ∃ b, reportsEntry o = Except.ok b := by
        rcases hgood with ⟨s, hs, _, he⟩ | ⟨hs, he⟩
        · exact ⟨decide (400 < s), by simp [reportsEntry, he, hs]⟩
        · exact ⟨true, by simp [reportsEntry, he]⟩
      obtain ⟨b, hb⟩ := hrep
      refine ⟨if b then formatLine purl o :: lines else lines, ?_⟩
      simp [print_results, hb, hl]

/-- Claim C10: under the HTTP-client contract (`RespOk`: non-exceptional
responses have status below 400) and with workers that deliver
`process_page`'s result for every task, every completed Outcome stored in
any reachable frontier has either a present status below 400 with empty
error, or an absent status with non-empty error; consequently
`print_results` never reaches its absent-status comparison (the modelled
`TypeError`) on such a frontier and returns its lines normally. -/
theorem claim_C10 (decode : String → List Nat → Option String)
    (getLinks : String → List String) (http : String → HttpOutcome)
    (fetch : String → Bool → FetchData) (input : String) (choices : List Nat)
    (H1 : ∀ u, RespOk (http u))
    (H2 : ∀ t : Task, process_page decode getLinks t.url t.collect_links (http t.url)
        = Except.ok (mkResult fetch t)) :
    (∀ p ∈ (mainRun fetch input choices).dict, ∀ o : Outcome,
      p.2 = some o → OutcomeGood o) ∧
    ∃ lines, print_results ((mainRun fetch input choices).dict) = Except.ok lines := by
  have hfetch : ∀ t : Task,
      OutcomeGood ⟨(mkResult fetch t).status, (mkResult fetch t).error⟩ :=
    fun t => process_page_outcome decode getLinks t.url t.collect_links (http t.url)
      (mkResult fetch t) (H1 t.url) (H2 t)
  have hdict := runFrom_outcomes fetch (get_root_url (get_base_url input)) hfetch choices
    (initState (get_base_url input)) (by intro p hp o ho; simp [initState] at hp)
  exact ⟨hdict, print_results_ok _ hdict⟩

/-- Claim C10 fixture: an HTTP collaborator for which every fetch fails
with a `URLError`. -/
def exHttp10 : String → HttpOutcome := fun _ => .urlError ("nope")

/-- Claim C10 fixture: the fetch data matching `exHttp10`. -/
def exFetch10 : String → Bool → FetchData :=
  fun _ _ => ⟨none, "Network error: " ++ "nope", [], ""⟩

/-- Claim C10 witness: the theorem applied to the all-network-error
collaborator. -/
theorem claim_C10_witness :
    (∀ p ∈ (mainRun exFetch10 ("a.com") [0]).dict, ∀ o : Outcome,
      p.2 = some o → OutcomeGood o) ∧
    ∃ lines, print_results ((mainRun exFetch10 ("a.com") [0]).dict) = Except.ok lines :=
  claim_C10 pyDecode (fun _ => []) exHttp10 exFetch10 ("a.com") [0]
    (fun _ => trivial) (fun _ => rfl)

/-! ## Claim C5: the failure report -/

/-- Entries on which the reporter's guard cannot raise: pending values, or
outcomes that are not (absent status, empty error). -/
def goodEntry : String × Option Outcome → Bool
  | (_, none) => true
  | (_, some o) => !(o.status == none && o.error == "")

/-- The line the reporter emits for an entry, if any: one line exactly
when the error is non-empty or the status is strictly greater than 400. -/
def keepLine : String × Option Outcome → Option String
  | (_, none) => none
  | (url, some o) =>
    if o.error ≠ "" then some (formatLine url o)
    else
      match o.status with
      | some s => if 400 < s then some (formatLine url o) else none
      | none => none

/-- Claim C5 counterexample: an entry whose Outcome has status exactly 400
(which is "at least 400") and an empty error produces *no* report line —
the code's guard is `status > 400`, strictly. -/
theorem claim_C5_counterexample :
    print_results [("http://u/", some ⟨some 400, ""⟩)] = Except.ok [] ∧
    (400 : Nat) ≥ 400 :=
  ⟨rfl, by decide⟩

/-- Claim C5 (amended): on any frontier free of (absent-status,
empty-error) outcomes — on those the reporter's `None > 400` comparison
raises a `TypeError` instead of printing — `print_results` emits exactly
one line per entry whose Outcome has a non-empty error or a status
*strictly greater* than 400, skips `None` placeholder entries, and emits
nothing for the rest. -/
theorem claim_C5_amended : ∀ (d : CrawlDict), (∀ p ∈ d, goodEntry p = true) →
    print_results d = Except.ok (d.filterMap keepLine) := by
  intro d
  induction d with
  | nil => intro h; rfl
  | cons p rest ih =>
    intro h
    have hrest := ih (fun q hq => h q (List.mem_cons_of_mem _ hq))
    obtain ⟨purl, pval⟩ := p
    cases pval with
    | none => simpa [print_results, List.filterMap_cons, keepLine] using hrest
    | some o =>
      have hgood := h (purl, some o) (List.mem_cons_self _ _)
      by_cases he : o.error = ""
      · cases hst : o.status with
        | none =>
          exfalso
          simp [goodEntry, he, hst] at hgood
        | some s =>
          by_cases hs : 400 < s
          · simp [print_results, reportsEntry, he, hst, hs, hrest,
              List.filterMap_cons, keepLine]
          · simp [print_results, reportsEntry, he, hst, hs, hrest,
              List.filterMap_cons, keepLine]
      · simp [print_results, reportsEntry, he, hrest, List.filterMap_cons, keepLine]

/-- Claim C5 witness: the amended theorem on a frontier with a reported
500, a skipped placeholder, a reported network error and a skipped 200. -/
theorem claim_C5_witness :
    print_results
        [("u", some ⟨some 500, ""⟩), ("v", none),
         ("w", some ⟨none, "Network error: x"⟩), ("z", some ⟨some 200, ""⟩)]
      = Except.ok
        (List.filterMap keepLine
          [("u", some ⟨some 500, ""⟩), ("v", none),
           ("w", some ⟨none, "Network error: x"⟩), ("z", some ⟨some 200, ""⟩)]) :=
  claim_C5_amended _ (by decide)

/-! ## Claims C1, C4, C6: evaluations at the failing inputs -/

/-- Claim C1: during link expansion, when a redirect occurred
(`result.redirect` non-empty and different from the requested URL), the
code resolves a relative link against the *requested* URL: with requested
URL `http://a.com/old` redirected to `http://b.com/new/`, the raw link
`x.html` resolves to `http://a.com/x.html`, whereas resolution against
the final URL — what the claim states — would give
`http://b.com/new/x.html`. -/
theorem claim_C1_code_eval :
    resolve_link ⟨"http://a.com/old", some 200, "", ["x.html"], "http://b.com/new/"⟩
        ("x.html") = "http://a.com/x.html" ∧
    restore_relative_url ("x.html") ("http://b.com/new/") = "http://b.com/new/x.html" :=
  ⟨by decide, by decide⟩

/-- Claim C4: a body that the declared charset cannot decode (byte `0xFF`
is invalid strict UTF-8) makes `process_page` raise an uncaught
`UnicodeDecodeError` (modelled `Except.error ()`): no `ResponseResult` is
produced at all — the claim's "treated as no links, status preserved"
behaviour does not happen.  The same response with a decodable body
yields the normal result. -/
theorem claim_C4_code_eval :
    process_page pyDecode (fun _ => []) ("http://a.com/p") true
        (HttpOutcome.success 200 (some ("utf-8")) [104, 105, 255] ("http://a.com/p"))
      = Except.error () ∧
    process_page pyDecode (fun _ => []) ("http://a.com/p") true
        (HttpOutcome.success 200 (some ("utf-8")) [104, 105] ("http://a.com/p"))
      = Except.ok ⟨"http://a.com/p", some 200, "", [], "http://a.com/p"⟩ :=
  ⟨rfl, rfl⟩

/-- Claim C6: `get_base_url` rebuilds the URL from
`urlsplit(s)[:3] + ('', '')` — scheme, netloc and path only — so the
query component is dropped, contradicting both the claim and the
function's own docstring example; the scheme-prepending half of the claim
does hold (`example.com` and `http://example.com` canonicalize alike). -/
theorem claim_C6_code_eval :
    get_base_url ("aa.com/1/2/3.html?p1=1&p2=2#tag") = "http://aa.com/1/2/3.html" ∧
    get_base_url ("example.com") = "http://example.com" ∧
    get_base_url ("http://example.com") = "http://example.com" :=
  ⟨by decide, by decide, by decide⟩

end Crawler
